import Mathlib

/-!
Shallow embedding of the Active-Window Playback Coordinator of the
feed-with-react-native repository, together with proofs about the behaviour
of its watch cache, prefetch scheduler, playback lifecycle controller,
active-item selection and mock data generation.

Conventions: JavaScript numbers that carry playback positions and durations
are modelled as rationals; `Date.now()` timestamps are naturals supplied as
explicit parameters; the insertion-ordered `Map` backing the video cache is
modelled as a list of entries in insertion order.
-/

/-- Data model: `Video` from src/types/index.ts. -/
structure Video where
  id : String
  url : String
  thumbnail : Option String
  duration : Option Nat
  title : Option String
deriving DecidableEq

/-- Data model: `Post` from src/types/index.ts (author flattened to its fields). -/
structure Post where
  id : String
  authorId : String
  authorUsername : String
  content : String
  videos : List Video
  timestamp : Nat
  likes : Nat
  comments : Nat
  shares : Nat
deriving DecidableEq

/-! ### Watch cache (src/unnamed/part_001, class VideoCache) -/

/-- Entry of the video cache, `VideoCacheEntry` from src/unnamed/part_001. -/
structure VideoCacheEntry where
  uri : String
  lastWatched : Nat
  watchCount : Nat
  lastPosition : Rat
  duration : Rat
  isFullyWatched : Bool
deriving DecidableEq

/-- The insertion-ordered `Map<string, VideoCacheEntry>` backing the cache. -/
abbrev Cache := List VideoCacheEntry

/-- `maxCacheSize = 100` from src/unnamed/part_001. -/
def maxCacheSize : Nat := 100

/-- Comparator used by `cleanupCache`: `(a, b) => b.lastWatched - a.lastWatched`
sorts entries by `lastWatched` descending; the boolean order given to the
stable merge sort keeps an entry before another when its timestamp is
greater or equal. -/
def byLastWatchedDesc (a b : VideoCacheEntry) : Bool :=
  b.lastWatched ≤ a.lastWatched

/-- `VideoCache.cleanupCache`: if the cache exceeds `maxCacheSize`, sort by
`lastWatched` descending (stable) and keep only the first `maxCacheSize`
entries. -/
def cleanupCache (c : Cache) : Cache :=
  if c.length ≤ maxCacheSize then c
  else (c.mergeSort byLastWatchedDesc).take maxCacheSize

/-- The `90% watched = fully watched` test in `markAsWatched`:
`position >= duration * 0.9`. -/
def fullyWatchedTest (position duration : Rat) : Bool :=
  duration * (9 / 10) ≤ position

/-- The map/insert step of `VideoCache.markAsWatched` before cleanup: update
the existing entry in place (preserving map order) or append a fresh one. -/
def markStep (c : Cache) (uri : String) (position duration : Rat) (now : Nat) : Cache :=
  if c.any (fun e => e.uri == uri) then
    c.map (fun e =>
      if e.uri == uri then
        { e with
          lastWatched := now
          watchCount := e.watchCount + 1
          lastPosition := position
          duration := duration
          isFullyWatched := fullyWatchedTest position duration || e.isFullyWatched }
      else e)
  else
    c ++ [{ uri := uri, lastWatched := now, watchCount := 1,
            lastPosition := position, duration := duration,
            isFullyWatched := fullyWatchedTest position duration }]

/-- `VideoCache.markAsWatched(uri, position, duration)`, with the call time
`now` made explicit. -/
def markAsWatched (c : Cache) (uri : String) (position duration : Rat) (now : Nat) : Cache :=
  cleanupCache (markStep c uri position duration now)

/-- `VideoCache.hasBeenWatched(uri)`. -/
def hasBeenWatched (c : Cache) (uri : String) : Bool :=
  c.any (fun e => e.uri == uri)

/-- `VideoCache.isFullyWatched(uri)`: `this.cache.get(uri)?.isFullyWatched ?? false`. -/
def isFullyWatchedQuery (c : Cache) (uri : String) : Bool :=
  match c.find? (fun e => e.uri == uri) with
  | some e => e.isFullyWatched
  | none => false

/-- `VideoCache.getLastPosition(uri)`: `this.cache.get(uri)?.lastPosition ?? 0`. -/
def getLastPosition (c : Cache) (uri : String) : Rat :=
  match c.find? (fun e => e.uri == uri) with
  | some e => e.lastPosition
  | none => 0

/-! ### Prefetch scheduler (src/utils/prefetch.ts) -/

/-- Outcome of the `fetch` probe issued by `prefetchVideoMetadata`: either a
response with an HTTP status, or a rejection carrying the error's `name`
(a request aborted by the function's own timeout rejects with name
`AbortError`). -/
inductive FetchOutcome where
  | response (status : Nat)
  | failure (errorName : String)
deriving DecidableEq

/-- `response.ok`: status in the range 200-299. -/
def responseOk (status : Nat) : Bool :=
  200 ≤ status && status ≤ 299

/-- Observable result of `prefetchVideoMetadata`: the returned boolean and
whether a warning-level log was emitted. -/
structure PrefetchResult where
  ok : Bool
  warned : Bool
deriving DecidableEq

/-- `prefetchVideoMetadata(url, options)` from src/utils/prefetch.ts, as a
function of the probe's outcome: on a response, valid iff `response.ok`
or status 206 (warn otherwise); on a rejection, return `false`, warning
unless the error is an `AbortError`. The function never throws: every
outcome is mapped to a boolean. -/
def prefetchVideoMetadata (outcome : FetchOutcome) : PrefetchResult :=
  match outcome with
  | .response status =>
      let isValid := responseOk status || status == 206
      { ok := isValid, warned := !isValid }
  | .failure errorName =>
      { ok := false, warned := errorName != "AbortError" }

/-- `MAX_CONCURRENT = 3` from `prefetchMultipleVideos`. -/
def MAX_CONCURRENT : Nat := 3

/-- The batching loop of `prefetchMultipleVideos`:
`for (i = 0; i < urls.length; i += MAX_CONCURRENT) batches.push(urls.slice(i, i + MAX_CONCURRENT))`. -/
def splitIntoBatches (urls : List String) : List (List String) :=
  if h : urls = [] then []
  else
    urls.take MAX_CONCURRENT :: splitIntoBatches (urls.drop MAX_CONCURRENT)
termination_by urls.length
decreasing_by
  simp only [List.length_drop, MAX_CONCURRENT]
  have : 0 < urls.length := List.length_pos.mpr h
  omega

/-- Execution shape of `prefetchMultipleVideos`: batches run strictly one
after another (each awaited to full settlement via `Promise.allSettled`),
and all requests of one batch are issued together, so the number of
outstanding requests while batch `t` runs is the size of batch `t`. -/
def concurrencyProfile (urls : List String) : List Nat :=
  (splitIntoBatches urls).map List.length

/-! ### Playback lifecycle controller (src/unnamed/part_003, VideoPlayerComponent) -/

/-- `MAX_RETRIES = 3` from VideoPlayerComponent. -/
def MAX_RETRIES : Nat := 3

/-- Retry-relevant component state: the `retryCount` and `hasError` React
states, the number of scheduled (not yet fired) retry timers, and the
`isActive` prop. -/
structure RetryState where
  retryCount : Nat
  hasError : Bool
  pending : Nat
  isActive : Bool
deriving DecidableEq

/-- Events driving the retry machine: a load/playback fault delivered to
`handleError` (or the error branch of `handleStatusUpdate`), the firing of
a scheduled retry timer, a successful load observed while in error state,
and the activation / deactivation effect on `isActive` changes. -/
inductive PlayerEvent where
  | fault
  | retryFire
  | loadSuccess
  | activate
  | deactivate
deriving DecidableEq

/-- One step of the controller, faithful to src/unnamed/part_003:
`fault`: `if (retryCount < MAX_RETRIES && isActive)` set `hasError` and
schedule a retry timer, `else if (retryCount >= MAX_RETRIES)` set
`hasError` permanently; `retryFire`: the timer callback re-checks
`isActive` and only then increments `retryCount`, clears `hasError` and
re-issues the load; `loadSuccess`: a loaded status while in error state
clears `hasError` and resets `retryCount`; `activate`: the activation
effect resets `retryCount` and `hasError`; `deactivate`: unloads, leaving
the retry counter untouched. -/
def step (s : RetryState) (ev : PlayerEvent) : RetryState :=
  match ev with
  | .fault =>
      if s.retryCount < MAX_RETRIES && s.isActive then
        { s with hasError := true, pending := s.pending + 1 }
      else if MAX_RETRIES ≤ s.retryCount then
        { s with hasError := true }
      else s
  | .retryFire =>
      if s.pending = 0 then s
      else if s.isActive then
        { s with pending := s.pending - 1, retryCount := s.retryCount + 1, hasError := false }
      else
        { s with pending := s.pending - 1 }
  | .loadSuccess =>
      if s.hasError then { s with hasError := false, retryCount := 0 } else s
  | .activate =>
      { s with isActive := true, retryCount := 0, hasError := false }
  | .deactivate =>
      { s with isActive := false }

/-- State reached right after the activation effect ran on a freshly
activated slot. -/
def activatedState : RetryState :=
  { retryCount := 0, hasError := false, pending := 0, isActive := true }

/-- One full fault round while continuously active: the load fails
(`fault`) and the scheduled retry timer then fires (`retryFire`). -/
def faultRound (s : RetryState) : RetryState :=
  step (step s .fault) .retryFire

/-- State of a continuously active controller after `k` consecutive
load-fault rounds. -/
def roundState : Nat → RetryState
  | 0 => activatedState
  | k + 1 => faultRound (roundState k)

/-- Iterate further fault deliveries on a state. -/
def iterFault : Nat → RetryState → RetryState
  | 0, s => s
  | m + 1, s => iterFault m (step s .fault)

/-- Autoplay condition of VideoPlayerComponent:
`shouldPlay = isActive && !manuallyPaused`. -/
def shouldPlay (isActive manuallyPaused : Bool) : Bool :=
  isActive && !manuallyPaused

/-- `togglePause`: `setManuallyPaused((prev) => !prev)`. -/
def togglePause (manuallyPaused : Bool) : Bool :=
  !manuallyPaused

/-- Pause-relevant slot state: the `manuallyPaused` React state and the
`isActive` prop. -/
structure PauseState where
  manuallyPaused : Bool
  isActive : Bool
deriving DecidableEq

/-- The `isActive` effect of VideoPlayerComponent: on deactivation the video
is unloaded and, when the unload promise resolves (`unloadOk`), the
`manuallyPaused` flag is reset; on activation the analytics flags are
reset but `manuallyPaused` is left as is. -/
def applyActiveEffect (s : PauseState) (newActive : Bool) (unloadOk : Bool) : PauseState :=
  if newActive then
    { s with isActive := true }
  else if unloadOk then
    { manuallyPaused := false, isActive := false }
  else
    { s with isActive := false }

/-! ### Analytics-to-cache wiring (src/components/VideoPlayer.tsx listeners) -/

/-- Analytics-relevant state of the expo-video based VideoPlayerComponent in
src/components/VideoPlayer.tsx: the once-per-session logging guards and
the process-wide watch cache it writes through. -/
structure AnalyticsState where
  hasLoggedStart : Bool
  hasLoggedComplete : Bool
  cache : Cache
deriving DecidableEq

/-- Result of delivering a player event to a listener: the successor state
and whether the corresponding analytics event was logged this time. -/
structure ListenerResult where
  state : AnalyticsState
  logged : Bool
deriving DecidableEq

/-- JavaScript truthiness of `player.duration`: an unknown duration
(`undefined`) or a zero duration is falsy. -/
def durationTruthy (duration : Option Rat) : Bool :=
  match duration with
  | some d => d != 0
  | none => false

/-- The `playingChange` listener of src/components/VideoPlayer.tsx: when
playing starts and the slot is active and start was not yet logged, log
`playback_start` and, only `if (player.duration)`, record the current
position and duration in the watch cache via
`videoCache.markAsWatched(uri, position, player.duration)`
(`position = player.currentTime || 0`). -/
def onPlayingChange (uri : String) (isActive : Bool) (st : AnalyticsState)
    (isPlaying : Bool) (currentTime : Option Rat) (duration : Option Rat)
    (now : Nat) : ListenerResult :=
  if isPlaying && !st.hasLoggedStart && isActive then
    let position := currentTime.getD 0
    let st' := { st with hasLoggedStart := true }
    if durationTruthy duration then
      { state := { st' with
          cache := markAsWatched st'.cache uri position (duration.getD 0) now }
        logged := true }
    else
      { state := st', logged := true }
  else
    { state := st, logged := false }

/-- The `playToEnd` listener of src/components/VideoPlayer.tsx: when the
video finishes and completion was not yet logged, log `playback_complete`
with `duration = player.duration || 0` and mark the video fully watched
via `videoCache.markAsWatched(uri, duration, duration)`. -/
def onPlayToEnd (uri : String) (st : AnalyticsState) (duration : Option Rat)
    (now : Nat) : ListenerResult :=
  if !st.hasLoggedComplete then
    let d := duration.getD 0
    { state := { st with
        hasLoggedComplete := true
        cache := markAsWatched st.cache uri d d now }
      logged := true }
  else
    { state := st, logged := false }

/-! ### Feed active-item selection (src/components/Feed.tsx, src/components/Post.tsx) -/

/-- A `ViewToken` delivered by the host list to `onViewableItemsChanged`:
an index (`null` for items out of the measurement window), the
`isViewable` flag, and the item payload. -/
structure ViewToken where
  index : Option Nat
  isViewable : Bool
  item : Option Post

/-- A token qualifies in the selection loop of `Feed.onViewableItemsChanged`
when `item.isViewable && item.item && item.index !== null`. -/
def qualifies (t : ViewToken) : Bool :=
  t.isViewable && t.item.isSome && t.index.isSome

/-- One iteration of the selection loop of the first
`Feed.onViewableItemsChanged` variant (src/components/Feed.tsx lines
48-85): a qualifying token replaces the accumulator when there is none
yet or when its index is strictly lower
(`activePost === null || item.index < bestIndex`). -/
def selectStep (acc : Option (Post × Nat)) (t : ViewToken) : Option (Post × Nat) :=
  if qualifies t then
    match t.item, t.index with
    | some p, some idx =>
        match acc with
        | none => some (p, idx)
        | some (q, bestIndex) =>
            if idx < bestIndex then some (p, idx) else some (q, bestIndex)
    | _, _ => acc
  else acc

/-- The `for (const item of viewableItems)` scan of the first
`Feed.onViewableItemsChanged` variant. -/
def selectLoop : List ViewToken → Option (Post × Nat) → Option (Post × Nat)
  | [], acc => acc
  | t :: rest, acc => selectLoop rest (selectStep acc t)

/-- `Feed.onViewableItemsChanged` (first variant): an empty report keeps the
previous active post (`return; // Don't clear active post immediately`);
otherwise, if the loop found a post, commit its id (the functional update
keeps `prevId` when it already equals the new id, which is the same
value); if no token qualified, the previous id is kept. -/
def onViewableItemsChanged (viewableItems : List ViewToken) (prevId : Option String) :
    Option String :=
  if viewableItems.isEmpty then prevId
  else
    match selectLoop viewableItems none with
    | some (p, _) => some p.id
    | none => prevId

/-- `Feed.renderPost`: `const isActive = activePostId === item.id`. -/
def renderPostIsActive (activePostId : Option String) (p : Post) : Bool :=
  activePostId == some p.id

/-- `Post.renderVideo`: `const isVideoActive = isActive && index === activeVideoIndex`. -/
def renderVideoIsActive (postIsActive : Bool) (activeVideoIndex : Nat) (index : Nat) : Bool :=
  postIsActive && index == activeVideoIndex

/-- Number of video slots of one rendered post that receive
`isActive = true`: the carousel renders one `VideoTile` per video index. -/
def postActiveSlotCount (postIsActive : Bool) (activeVideoIndex : Nat) (numVideos : Nat) : Nat :=
  (List.range numVideos).countP
    (fun index => renderVideoIsActive postIsActive activeVideoIndex index)

/-- Number of video slots across the whole rendered feed that receive
`isActive = true`; `avi k` is the `activeVideoIndex` state of the `Post`
component rendered at feed position `k`. -/
def feedActiveSlotCount (activePostId : Option String) (avi : Nat → Nat) :
    List Post → Nat → Nat
  | [], _ => 0
  | p :: rest, k =>
      postActiveSlotCount (renderPostIsActive activePostId p) (avi k) p.videos.length +
        feedActiveSlotCount activePostId avi rest (k + 1)

/-! ### Mock data generation (src/utils/mockData.ts, first variant) -/

/-- Decimal rendering of a natural number, as produced by the template
literal `${videoIndex}` in src/utils/mockData.ts. -/
def natDecimal (n : Nat) : String :=
  if n = 0 then "0"
  else String.mk (((Nat.digits 10 n).map Nat.digitChar).reverse)

/-- The ten sample video locators of src/utils/mockData.ts. -/
def SAMPLE_VIDEO_URLS : List String :=
  [ "https://videos.pexels.com/video-files/30280414/12980115_1440_2560_25fps.mp4"
  , "https://videos.pexels.com/video-files/5532771/5532771-sd_226_426_25fps.mp4"
  , "https://videos.pexels.com/video-files/30043254/12887771_1080_1920_30fps.mp4"
  , "https://videos.pexels.com/video-files/28836213/12491352_1440_2560_30fps.mp4"
  , "https://videos.pexels.com/video-files/29842217/12815329_1080_1920_30fps.mp4"
  , "https://videos.pexels.com/video-files/5863152/5863152-sd_240_426_29fps.mp4"
  , "https://videos.pexels.com/video-files/5532765/5532765-uhd_2160_4096_25fps.mp4"
  , "https://videos.pexels.com/video-files/30129754/12920666_1440_2560_30fps.mp4"
  , "https://videos.pexels.com/video-files/28728787/12464794_1080_1920_30fps.mp4"
  , "https://videos.pexels.com/video-files/4620573/4620573-sd_226_426_25fps.mp4" ]

/-- The ten sample usernames of src/utils/mockData.ts. -/
def SAMPLE_USERNAMES : List String :=
  [ "johndoe", "janedoe", "techguru", "videolover", "contentcreator"
  , "socialmedia", "trendingnow", "viralvideos", "entertainment", "dailyfeed" ]

/-- `randomInt(min, max)` returns
`Math.floor(Math.random() * (max - min + 1)) + min`; the random draw is
made explicit as a natural `r`, whose remainder modulo `max - min + 1`
ranges over exactly the values `Math.floor(Math.random() * (max-min+1))`
can take. -/
def randomInt (lo hi : Nat) (r : Nat) : Nat :=
  lo + r % (hi - lo + 1)

/-- `generateVideo(videoIndex)` from src/utils/mockData.ts; `r` is the random
draw used for the duration. -/
def generateVideo (videoIndex : Nat) (r : Nat) : Video :=
  { id := "video-" ++ natDecimal videoIndex
    url := (SAMPLE_VIDEO_URLS.getD (videoIndex % SAMPLE_VIDEO_URLS.length) "")
    thumbnail := none
    duration := some (randomInt 10 120 r)
    title := some ("Video " ++ natDecimal (videoIndex + 1)) }

/-- `generatePost(postIndex)` from src/utils/mockData.ts (first variant):
`videoCount = randomInt(1, 5)` videos with indices
`postIndex * 10 + i`; `rnd` supplies the successive random draws of the
post and `now` stands for `Date.now()`. -/
def generatePost (postIndex : Nat) (rnd : Nat → Nat) (now : Nat) : Post :=
  let videoCount := randomInt 1 5 (rnd 0)
  { id := "post-" ++ natDecimal postIndex
    authorId := "user-" ++ natDecimal (postIndex % SAMPLE_USERNAMES.length)
    authorUsername := SAMPLE_USERNAMES.getD (postIndex % SAMPLE_USERNAMES.length) ""
    content := ""
    videos := (List.range videoCount).map
      (fun i => generateVideo (postIndex * 10 + i) (rnd (i + 1)))
    timestamp := now - randomInt 0 (7 * 24 * 60 * 60 * 1000) (rnd 6)
    likes := randomInt 0 10000 (rnd 7)
    comments := randomInt 0 500 (rnd 8)
    shares := randomInt 0 200 (rnd 9) }

/-- `generateMockPosts(count)` from src/utils/mockData.ts: one post per index
`0 ≤ i < count`; `rnd i` supplies the random draws of post `i`. -/
def generateMockPosts (count : Nat) (rnd : Nat → Nat → Nat) (now : Nat) : List Post :=
  (List.range count).map (fun i => generatePost i (rnd i) now)

/-! ### Concrete fixtures used by witnesses and counterexamples -/

/-- A post with id `A` and no videos, used as concrete input. -/
def cxPostA : Post :=
  { id := "A", authorId := "", authorUsername := "", content := ""
    videos := [], timestamp := 0, likes := 0, comments := 0, shares := 0 }

/-- A post with id `B` and no videos, used as concrete input. -/
def cxPostB : Post :=
  { id := "B", authorId := "", authorUsername := "", content := ""
    videos := [], timestamp := 0, likes := 0, comments := 0, shares := 0 }

/-- A viewability token reporting `cxPostA` viewable at index 1. -/
def cxTokenA : ViewToken :=
  { index := some 1, isViewable := true, item := some cxPostA }

/-- A viewability token reporting `cxPostB` viewable at index 2. -/
def cxTokenB : ViewToken :=
  { index := some 2, isViewable := true, item := some cxPostB }

/-- A freshly mounted analytics state with an empty watch cache. -/
def cxFreshAnalytics : AnalyticsState :=
  { hasLoggedStart := false, hasLoggedComplete := false, cache := [] }

/-- A one-entry cache whose single video is already fully watched. -/
def cxWatchedCache : Cache :=
  [{ uri := "a", lastWatched := 0, watchCount := 1, lastPosition := 1,
     duration := 1, isFullyWatched := true }]

/-- A full cache of `maxCacheSize` entries with uris `u`, timestamps
`1, 2, ..., 100`. -/
def cxFullCache : Cache :=
  (List.range maxCacheSize).map
    (fun i => { uri := "u", lastWatched := i + 1, watchCount := 1,
                lastPosition := 0, duration := 0, isFullyWatched := false })

/-! ### Theorems -/

/-- C5: for every outcome of the network probe, `prefetchVideoMetadata`
returns a boolean (it never throws): it returns `true` exactly when the
response status is 2xx or 206, returns `false` on every fault, and emits
a warning for every failed probe except a rejection named `AbortError`
(the request aborted by its own timeout). -/
theorem prefetch_classification (o : FetchOutcome) :
    ((prefetchVideoMetadata o).ok = true ↔
      ∃ s, o = .response s ∧ (responseOk s = true ∨ s = 206)) ∧
    ((prefetchVideoMetadata o).warned = true ↔
      ((∃ s, o = .response s ∧ responseOk s = false ∧ s ≠ 206) ∨
        ∃ n, o = .failure n ∧ n ≠ "AbortError")) := by
  cases o with
  | response s =>
      constructor
      · simp [prefetchVideoMetadata]
      · simp [prefetchVideoMetadata]
  | failure n =>
      constructor
      · simp [prefetchVideoMetadata]
      · simp [prefetchVideoMetadata]

/-- C5 witness: concrete evaluation at a 200 response. -/
theorem prefetch_classification_witness :
    ((prefetchVideoMetadata (.response 200)).ok = true ↔
      ∃ s, FetchOutcome.response 200 = .response s ∧ (responseOk s = true ∨ s = 206)) ∧
    ((prefetchVideoMetadata (.response 200)).warned = true ↔
      ((∃ s, FetchOutcome.response 200 = .response s ∧ responseOk s = false ∧ s ≠ 206) ∨
        ∃ n, FetchOutcome.response 200 = .failure n ∧ n ≠ "AbortError")) :=
  prefetch_classification (.response 200)

/-- C9: a manual pause suppresses autoplay regardless of `isActive`
(`shouldPlay` is `false` whenever `manuallyPaused` is `true`), and an
inactive-then-active cycle whose unload succeeds clears the manual-pause
flag, so the re-activated slot autoplays again. -/
theorem manualPause_suppresses_autoplay :
    (∀ isActive : Bool, shouldPlay isActive true = false) ∧
    (∀ s : PauseState,
      (applyActiveEffect (applyActiveEffect s false true) true true).manuallyPaused = false ∧
      shouldPlay (applyActiveEffect (applyActiveEffect s false true) true true).isActive
        (applyActiveEffect (applyActiveEffect s false true) true true).manuallyPaused = true) := by
  constructor
  · intro a; cases a <;> rfl
  · intro s
    constructor <;> rfl

/-- Once the retry counter has reached `MAX_RETRIES`, a further fault only
re-asserts the error flag and schedules nothing. -/
theorem step_fault_exhausted (s : RetryState) (h : MAX_RETRIES ≤ s.retryCount) :
    step s .fault = { s with hasError := true } := by
  unfold step
  have h1 : (s.retryCount < MAX_RETRIES && s.isActive) = false := by
    cases ha : s.isActive <;> simp [Nat.not_lt.mpr h]
  simp [h1, h]

/-- An exhausted errored state is a fixed point of further fault deliveries. -/
theorem iterFault_fixed (m : Nat) (s : RetryState) (h : MAX_RETRIES ≤ s.retryCount)
    (he : s.hasError = true) : iterFault m s = s := by
  induction m with
  | zero => rfl
  | succ k ih =>
      have hstep : step s .fault = s := by
        rw [step_fault_exhausted s h]
        cases s
        simp_all
      show iterFault k (step s .fault) = s
      rw [hstep, ih]

/-- C4: a continuously active controller under consecutive load faults has
attempt counter `k` after `k` fault rounds (`k ≤ 3`); a further fault
schedules a retry exactly when the counter is still strictly below
`MAX_RETRIES = 3` and the slot is active; after exactly 3 attempts the
controller is permanently errored — every further fault leaves it errored
with no retry scheduled and the counter still at 3; a retry timer firing
on an inactive slot does not count an attempt; and only a fresh
activation resets the counter to 0. -/
theorem retry_bound (k : Nat) (hk : k ≤ MAX_RETRIES) :
    (roundState k).retryCount = k ∧
    (roundState k).pending = 0 ∧
    (roundState k).isActive = true ∧
    (k < MAX_RETRIES → (step (roundState k) .fault).pending = (roundState k).pending + 1) ∧
    (k = MAX_RETRIES →
      ∀ m : Nat,
        (iterFault m (step (roundState k) .fault)).hasError = true ∧
        (iterFault m (step (roundState k) .fault)).pending = 0 ∧
        (iterFault m (step (roundState k) .fault)).retryCount = MAX_RETRIES) ∧
    (∀ s : RetryState,
      (step s .fault).pending = s.pending + 1 ↔
        (s.retryCount < MAX_RETRIES ∧ s.isActive = true)) ∧
    (∀ s : RetryState, s.isActive = false → (step s .retryFire).retryCount = s.retryCount) ∧
    (∀ s : RetryState, (step s .activate).retryCount = 0) := by
  have hk3 : k ≤ 3 := by simpa [MAX_RETRIES] using hk
  refine ⟨?_, ?_, ?_, ?_, ?_, ?_, ?_, ?_⟩
  · interval_cases k <;> decide
  · interval_cases k <;> decide
  · interval_cases k <;> decide
  · intro hlt
    have hlt3 : k < 3 := by simpa [MAX_RETRIES] using hlt
    interval_cases k <;> decide
  · intro hks m
    have h3 : step (roundState k) .fault =
        { roundState k with hasError := true } := by
      subst hks
      decide
    rw [h3]
    have hfix := iterFault_fixed m { roundState k with hasError := true }
      (by subst hks; decide) rfl
    rw [hfix]
    subst hks
    refine ⟨rfl, ?_, ?_⟩ <;> decide
  · intro s
    cases ha : s.isActive with
    | false =>
        constructor
        · intro hp
          exfalso
          by_cases h3 : MAX_RETRIES ≤ s.retryCount <;>
            simp [step, ha, h3] at hp
        · rintro ⟨_, hA⟩
          cases hA
    | true =>
        by_cases hlt : s.retryCount < MAX_RETRIES
        · constructor
          · intro _
            exact ⟨hlt, rfl⟩
          · intro _
            simp [step, ha, hlt]
        · constructor
          · intro hp
            have h3 : MAX_RETRIES ≤ s.retryCount := Nat.not_lt.mp hlt
            simp [step, ha, hlt, h3] at hp
          · rintro ⟨h, _⟩
            exact absurd h hlt
  · intro s ha
    by_cases hp : s.pending = 0 <;> simp [step, hp, ha]
  · intro s
    rfl

/-- C4 witness: the bound instantiated at `k = MAX_RETRIES = 3`. -/
theorem retry_bound_witness :
    3 ≤ MAX_RETRIES ∧ (roundState 3).retryCount = 3 :=
  ⟨by decide, (retry_bound 3 (by decide)).1⟩

/-- The cleanup comparator is transitive. -/
theorem byLastWatchedDesc_trans (a b c : VideoCacheEntry)
    (hab : byLastWatchedDesc a b = true) (hbc : byLastWatchedDesc b c = true) :
    byLastWatchedDesc a c = true := by
  simp only [byLastWatchedDesc, decide_eq_true_eq] at *
  omega

/-- The cleanup comparator is total. -/
theorem byLastWatchedDesc_total (a b : VideoCacheEntry) :
    (byLastWatchedDesc a b || byLastWatchedDesc b a) = true := by
  simp only [byLastWatchedDesc, Bool.or_eq_true, decide_eq_true_eq]
  omega

/-- Length of the pre-cleanup step: unchanged on update, one more on insert. -/
theorem markStep_length (c : Cache) (uri : String) (p d : Rat) (now : Nat) :
    (markStep c uri p d now).length =
      if c.any (fun e => e.uri == uri) then c.length else c.length + 1 := by
  unfold markStep
  split <;> simp

/-- Cleanup truncates the cache to at most `maxCacheSize` entries and never
shortens a cache already within bounds. -/
theorem cleanupCache_length (c : Cache) :
    (cleanupCache c).length = min c.length maxCacheSize := by
  unfold cleanupCache
  split
  · omega
  · rw [List.length_take, (List.mergeSort_perm c byLastWatchedDesc).length_eq]
    omega

/-- Cleanup is the identity on caches within capacity. -/
theorem cleanupCache_eq_of_le (c : Cache) (h : c.length ≤ maxCacheSize) :
    cleanupCache c = c := by
  unfold cleanupCache
  simp [h]

/-- Updating or inserting `uri` rewrites the entry found for `uri`: its
fully-watched flag afterwards is the fresh test OR-ed with the previous
flag. -/
theorem markStep_query (c : Cache) (uri : String) (p d : Rat) (now : Nat) :
    isFullyWatchedQuery (markStep c uri p d now) uri =
      (fullyWatchedTest p d || isFullyWatchedQuery c uri) := by
  unfold markStep
  split
  · next hany =>
      unfold isFullyWatchedQuery
      rw [List.find?_map]
      have hpred : ((fun e : VideoCacheEntry => e.uri == uri) ∘
          (fun e : VideoCacheEntry =>
            if e.uri == uri then
              { e with
                lastWatched := now
                watchCount := e.watchCount + 1
                lastPosition := p
                duration := d
                isFullyWatched := fullyWatchedTest p d || e.isFullyWatched }
            else e)) = (fun e : VideoCacheEntry => e.uri == uri) := by
        funext e
        by_cases he : (e.uri == uri) = true
        · have he' : e.uri = uri := by simpa using he
          simp [he, he']
        · have he' : ¬e.uri = uri := by simpa using he
          simp [he, he']
      rw [hpred]
      cases hf : List.find? (fun e => e.uri == uri) c with
      | none =>
          rw [List.any_eq_true] at hany
          obtain ⟨x, hx, hmatch⟩ := hany
          rw [List.find?_eq_none] at hf
          exact absurd hmatch (hf x hx)
      | some e =>
          have hmatch := List.find?_some hf
          have he' : e.uri = uri := by simpa using hmatch
          simp [he']
  · next hany =>
      unfold isFullyWatchedQuery
      rw [List.find?_append]
      have hnone : c.find? (fun e => e.uri == uri) = none := by
        rw [List.find?_eq_none]
        intro x hx hmatch
        exact hany (List.any_eq_true.mpr ⟨x, hx, hmatch⟩)
      rw [hnone]
      simp

/-- C7: the fully-watched flag is monotone: once a video's cache entry is
fully watched, any later `markAsWatched` call for the same uri (with any
position and duration) leaves it fully watched, because the new flag is
the fresh 90%-test OR-ed with the old flag. -/
theorem fullyWatched_monotone (c : Cache) (uri : String) (p d : Rat) (now : Nat)
    (hlen : c.length ≤ maxCacheSize)
    (hfull : isFullyWatchedQuery c uri = true) :
    isFullyWatchedQuery (markAsWatched c uri p d now) uri = true := by
  have hany : c.any (fun e => e.uri == uri) = true := by
    unfold isFullyWatchedQuery at hfull
    rcases hf : c.find? (fun e => e.uri == uri) with _ | e
    · rw [hf] at hfull
      cases hfull
    · have hb := List.find?_some hf
      exact List.any_eq_true.mpr ⟨e, List.mem_of_find?_eq_some hf, hb⟩
  have hstep : (markStep c uri p d now).length ≤ maxCacheSize := by
    rw [markStep_length, if_pos hany]
    exact hlen
  unfold markAsWatched
  rw [cleanupCache_eq_of_le _ hstep, markStep_query, hfull, Bool.or_true]

/-- C7 witness: a fully-watched one-entry cache stays fully watched after a
replayed `markAsWatched` with a short position. -/
theorem fullyWatched_monotone_witness :
    cxWatchedCache.length ≤ maxCacheSize ∧
    isFullyWatchedQuery cxWatchedCache "a" = true ∧
    isFullyWatchedQuery (markAsWatched cxWatchedCache "a" 0 10 5) "a" = true :=
  ⟨by decide, by decide,
    fullyWatched_monotone cxWatchedCache "a" 0 10 5 (by decide) (by decide)⟩

/-- Cleanup evicts a (possibly empty) set of entries whose `lastWatched` is
no newer than that of every kept entry. -/
theorem cleanupCache_eviction (c : Cache) :
    ∃ evicted : List VideoCacheEntry,
      c.Perm (cleanupCache c ++ evicted) ∧
      ∀ x ∈ evicted, ∀ y ∈ cleanupCache c, x.lastWatched ≤ y.lastWatched := by
  by_cases hle : c.length ≤ maxCacheSize
  · refine ⟨[], ?_, ?_⟩
    · rw [cleanupCache_eq_of_le c hle]
      simp
    · intro x hx
      cases hx
  · have hclean : cleanupCache c = (c.mergeSort byLastWatchedDesc).take maxCacheSize := by
      unfold cleanupCache
      rw [if_neg hle]
    refine ⟨(c.mergeSort byLastWatchedDesc).drop maxCacheSize, ?_, ?_⟩
    · rw [hclean, List.take_append_drop]
      exact (List.mergeSort_perm c byLastWatchedDesc).symm
    · intro x hx y hy
      rw [hclean] at hy
      have hsorted : List.Pairwise (fun a b => byLastWatchedDesc a b = true)
          (c.mergeSort byLastWatchedDesc) :=
        List.sorted_mergeSort byLastWatchedDesc_trans byLastWatchedDesc_total c
      rw [← List.take_append_drop maxCacheSize (c.mergeSort byLastWatchedDesc)] at hsorted
      have hrel := (List.pairwise_append.mp hsorted).2.2 y hy x hx
      simpa [byLastWatchedDesc] using hrel

/-- C3: the cache never exceeds its capacity of 100 entries after any
`markAsWatched` call; cleanup only ever evicts entries whose
`lastWatchedAt` is no newer than every kept entry's; and inserting a
101st distinct uri into a full 100-entry cache evicts exactly one entry,
one with the globally smallest `lastWatched`, returning the size to 100. -/
theorem cache_eviction (c : Cache) (uri : String) (p d : Rat) (now : Nat)
    (hfullc : c.length = maxCacheSize)
    (hfresh : hasBeenWatched c uri = false) :
    (∀ (c' : Cache) (uri' : String) (p' d' : Rat) (now' : Nat),
      (markAsWatched c' uri' p' d' now').length ≤ maxCacheSize) ∧
    (∀ c' : Cache, ∃ evicted : List VideoCacheEntry,
      c'.Perm (cleanupCache c' ++ evicted) ∧
      ∀ x ∈ evicted, ∀ y ∈ cleanupCache c', x.lastWatched ≤ y.lastWatched) ∧
    (markAsWatched c uri p d now).length = maxCacheSize ∧
    (∃ ev : VideoCacheEntry,
      (markStep c uri p d now).Perm (markAsWatched c uri p d now ++ [ev]) ∧
      ∀ x ∈ markStep c uri p d now, ev.lastWatched ≤ x.lastWatched) := by
  have hstep_len : (markStep c uri p d now).length = maxCacheSize + 1 := by
    rw [markStep_length]
    unfold hasBeenWatched at hfresh
    rw [if_neg (by simp [hfresh]), hfullc]
  refine ⟨?_, cleanupCache_eviction, ?_, ?_⟩
  · intro c' uri' p' d' now'
    unfold markAsWatched
    rw [cleanupCache_length]
    omega
  · unfold markAsWatched
    rw [cleanupCache_length, hstep_len]
    omega
  · obtain ⟨evicted, hperm, hmin⟩ := cleanupCache_eviction (markStep c uri p d now)
    have hev_len : evicted.length = 1 := by
      have := hperm.length_eq
      rw [List.length_append] at this
      have hcl : (cleanupCache (markStep c uri p d now)).length = maxCacheSize := by
        rw [cleanupCache_length, hstep_len]
        omega
      omega
    obtain ⟨ev, hev⟩ : ∃ ev, evicted = [ev] := by
      cases evicted with
      | nil => simp at hev_len
      | cons a t =>
          cases t with
          | nil => exact ⟨a, rfl⟩
          | cons b t' => simp at hev_len
    subst hev
    refine ⟨ev, hperm, ?_⟩
    intro x hx
    rw [hperm.mem_iff, List.mem_append] at hx
    rcases hx with hx | hx
    · exact hmin ev (by simp) x hx
    · simp at hx
      subst hx
      exact Nat.le_refl _

/-- C3 witness: inserting a fresh 101st uri into the concrete full cache. -/
theorem cache_eviction_witness :
    cxFullCache.length = maxCacheSize ∧
    hasBeenWatched cxFullCache "v" = false ∧
    (markAsWatched cxFullCache "v" 0 0 500).length = maxCacheSize :=
  ⟨by simp [cxFullCache], by simp [cxFullCache, hasBeenWatched],
    (cache_eviction cxFullCache "v" 0 0 500 (by simp [cxFullCache])
      (by simp [cxFullCache, hasBeenWatched])).2.2.1⟩

/-- Batching an empty url list yields no batches. -/
theorem splitIntoBatches_nil : splitIntoBatches [] = [] := by
  unfold splitIntoBatches
  rfl

/-- Batching a nonempty url list yields the first three urls followed by the
batches of the rest. -/
theorem splitIntoBatches_cons (urls : List String) (h : urls ≠ []) :
    splitIntoBatches urls =
      urls.take MAX_CONCURRENT :: splitIntoBatches (urls.drop MAX_CONCURRENT) := by
  conv_lhs => unfold splitIntoBatches
  rw [dif_neg h]

/-- There are batches exactly when there are urls. -/
theorem splitIntoBatches_eq_nil_iff (urls : List String) :
    splitIntoBatches urls = [] ↔ urls = [] := by
  constructor
  · intro h
    by_contra hne
    rw [splitIntoBatches_cons urls hne] at h
    cases h
  · intro h
    subst h
    exact splitIntoBatches_nil

/-- Concatenating the batches gives back the input in order: the batches are
a partition into consecutive groups. -/
theorem splitIntoBatches_flatten (urls : List String) :
    (splitIntoBatches urls).flatten = urls := by
  induction urls using splitIntoBatches.induct with
  | case1 => simp [splitIntoBatches_nil]
  | case2 urls h ih =>
      rw [splitIntoBatches_cons urls h, List.flatten_cons, ih, List.take_append_drop]

/-- Every batch is nonempty and holds at most `MAX_CONCURRENT` urls. -/
theorem splitIntoBatches_sizes (urls : List String) :
    ∀ b ∈ splitIntoBatches urls, b.length ≤ MAX_CONCURRENT ∧ b ≠ [] := by
  induction urls using splitIntoBatches.induct with
  | case1 => simp [splitIntoBatches_nil]
  | case2 urls h ih =>
      rw [splitIntoBatches_cons urls h]
      intro b hb
      rcases List.mem_cons.mp hb with hb | hb
      · subst hb
        constructor
        · rw [List.length_take]
          omega
        · rw [Ne, List.take_eq_nil_iff]
          rintro (h3 | hnil)
          · cases h3
          · exact h hnil
      · exact ih b hb

/-- Every batch except possibly the last holds exactly `MAX_CONCURRENT` urls. -/
theorem splitIntoBatches_full (urls : List String) :
    ∀ b ∈ (splitIntoBatches urls).dropLast, b.length = MAX_CONCURRENT := by
  induction urls using splitIntoBatches.induct with
  | case1 => simp [splitIntoBatches_nil]
  | case2 urls h ih =>
      rw [splitIntoBatches_cons urls h]
      by_cases hrest : urls.drop MAX_CONCURRENT = []
      · rw [hrest, splitIntoBatches_nil]
        simp
      · have hrestb : splitIntoBatches (urls.drop MAX_CONCURRENT) ≠ [] := by
          rw [Ne, splitIntoBatches_eq_nil_iff]
          exact hrest
        rw [List.dropLast_cons_of_ne_nil hrestb]
        intro b hb
        rcases List.mem_cons.mp hb with hb | hb
        · subst hb
          have hlen : MAX_CONCURRENT < urls.length := by
            have := List.length_drop MAX_CONCURRENT urls
            have hpos : 0 < (urls.drop MAX_CONCURRENT).length :=
              List.length_pos.mpr hrest
            omega
          rw [List.length_take]
          omega
        · exact ih b hb

/-- C6: `prefetchMultipleVideos` partitions its input into consecutive
batches of exactly `MAX_CONCURRENT = 3` urls (the last batch possibly
smaller but never empty), runs the batches strictly one after another
(each awaited to settlement before the next starts), so the number of
outstanding requests never exceeds 3; for 7 locators it runs exactly 3
batches of sizes 3, 3, 1. -/
theorem prefetchMany_batching :
    (∀ urls : List String,
      (splitIntoBatches urls).flatten = urls ∧
      (∀ b ∈ splitIntoBatches urls, b.length ≤ MAX_CONCURRENT ∧ b ≠ []) ∧
      (∀ b ∈ (splitIntoBatches urls).dropLast, b.length = MAX_CONCURRENT) ∧
      ∀ n ∈ concurrencyProfile urls, n ≤ MAX_CONCURRENT) ∧
    (∀ urls : List String, urls.length = 7 → concurrencyProfile urls = [3, 3, 1]) := by
  constructor
  · intro urls
    have hsizes := splitIntoBatches_sizes urls
    refine ⟨splitIntoBatches_flatten urls, hsizes, splitIntoBatches_full urls, ?_⟩
    intro n hn
    unfold concurrencyProfile at hn
    rw [List.mem_map] at hn
    obtain ⟨b, hb, hbn⟩ := hn
    rw [← hbn]
    exact (hsizes b hb).1
  · intro urls h7
    have h1 : urls ≠ [] := by
      intro hnil
      rw [hnil] at h7
      cases h7
    have hd1 : (urls.drop MAX_CONCURRENT).length = 4 := by
      rw [List.length_drop, h7, MAX_CONCURRENT]
    have h2 : urls.drop MAX_CONCURRENT ≠ [] := by
      intro hnil
      rw [hnil] at hd1
      cases hd1
    have hd2 : ((urls.drop MAX_CONCURRENT).drop MAX_CONCURRENT).length = 1 := by
      rw [List.length_drop, hd1, MAX_CONCURRENT]
    have h3 : (urls.drop MAX_CONCURRENT).drop MAX_CONCURRENT ≠ [] := by
      intro hnil
      rw [hnil] at hd2
      cases hd2
    have hd3 : (((urls.drop MAX_CONCURRENT).drop MAX_CONCURRENT).drop
        MAX_CONCURRENT).length = 0 := by
      rw [List.length_drop, hd2, MAX_CONCURRENT]
    have h4 : ((urls.drop MAX_CONCURRENT).drop MAX_CONCURRENT).drop
        MAX_CONCURRENT = [] := List.length_eq_zero.mp hd3
    unfold concurrencyProfile
    rw [splitIntoBatches_cons urls h1, splitIntoBatches_cons _ h2,
      splitIntoBatches_cons _ h3, h4, splitIntoBatches_nil]
    simp only [List.map_cons, List.map_nil, List.length_take]
    rw [h7, hd1, hd2]
    rfl

/-- C6 witness: the batching shape evaluated on seven concrete locators. -/
theorem prefetchMany_batching_witness :
    (["a", "b", "c", "d", "e", "f", "g"] : List String).length = 7 ∧
    concurrencyProfile ["a", "b", "c", "d", "e", "f", "g"] = [3, 3, 1] :=
  ⟨rfl, prefetchMany_batching.2 ["a", "b", "c", "d", "e", "f", "g"] rfl⟩

/-- Within one rendered post, at most one carousel slot is active: the slot
whose index equals the post's `activeVideoIndex`, and none when the post
itself is inactive. -/
theorem postActiveSlotCount_le_one (postIsActive : Bool) (avi numVideos : Nat) :
    postActiveSlotCount postIsActive avi numVideos ≤ 1 := by
  cases postIsActive with
  | false =>
      unfold postActiveSlotCount renderVideoIsActive
      rw [List.countP_eq_zero.mpr]
      · omega
      · intro i _
        simp
  | true =>
      unfold postActiveSlotCount renderVideoIsActive
      have hcount : (List.range numVideos).countP
          (fun index => true && index == avi) =
          (List.range numVideos).count avi := by
        unfold List.count
        congr 1
      rw [hcount]
      exact List.nodup_iff_count_le_one.mp (List.nodup_range numVideos) avi

/-- A feed segment in which no post carries the active id renders no active
slot at all. -/
theorem feedActiveSlotCount_zero (activePostId : Option String) (avi : Nat → Nat)
    (posts : List Post) (k : Nat)
    (hnone : ∀ q ∈ posts, renderPostIsActive activePostId q = false) :
    feedActiveSlotCount activePostId avi posts k = 0 := by
  induction posts generalizing k with
  | nil => rfl
  | cons q rest ih =>
      unfold feedActiveSlotCount
      rw [hnone q (by simp), ih (k + 1) (fun r hr => hnone r (by simp [hr]))]
      unfold postActiveSlotCount renderVideoIsActive
      rw [List.countP_eq_zero.mpr]
      intro i _
      simp

/-- C1: under pairwise-distinct post ids, the composition of
`Feed.renderPost` (`isActive = activePostId === item.id`) with
`Post.renderVideo` (`isVideoActive = isActive && index === activeVideoIndex`)
hands `isActive = true` to at most one `VideoPlayer` across all rendered
slots of the feed, whatever the per-post `activeVideoIndex` states are. -/
theorem single_active_slot (posts : List Post) (activePostId : Option String)
    (avi : Nat → Nat) (k : Nat)
    (hids : (posts.map Post.id).Nodup) :
    feedActiveSlotCount activePostId avi posts k ≤ 1 := by
  induction posts generalizing k with
  | nil => exact Nat.zero_le 1
  | cons q rest ih =>
      rw [List.map_cons, List.nodup_cons] at hids
      obtain ⟨hqid, hrest⟩ := hids
      unfold feedActiveSlotCount
      cases hact : renderPostIsActive activePostId q with
      | false =>
          have hzero : postActiveSlotCount false (avi k) q.videos.length = 0 := by
            unfold postActiveSlotCount renderVideoIsActive
            rw [List.countP_eq_zero.mpr]
            intro i _
            simp
          rw [hzero, Nat.zero_add]
          exact ih (k + 1) hrest
      | true =>
          have hap : activePostId = some q.id := by
            unfold renderPostIsActive at hact
            simpa using hact
          have hnone : ∀ r ∈ rest, renderPostIsActive activePostId r = false := by
            intro r hr
            unfold renderPostIsActive
            rw [hap, Bool.eq_false_iff]
            intro hbeq
            have he' : q.id = r.id := by simpa using hbeq
            exact hqid (List.mem_map.mpr ⟨r, hr, he'.symm⟩)
          have hrest0 := feedActiveSlotCount_zero activePostId avi rest (k + 1) hnone
          rw [hrest0, Nat.add_zero]
          exact postActiveSlotCount_le_one true (avi k) q.videos.length

/-- C1 witness: a two-post feed with distinct ids and the first post active. -/
theorem single_active_slot_witness :
    (([cxPostA, cxPostB].map Post.id).Nodup) ∧
    feedActiveSlotCount (some "A") (fun _ => 0) [cxPostA, cxPostB] 0 ≤ 1 :=
  ⟨by decide,
    single_active_slot [cxPostA, cxPostB] (some "A") (fun _ => 0) 0 (by decide)⟩

/-- A qualifying token turns an empty accumulator into a concrete best. -/
theorem selectStep_none (t : ViewToken) (p : Post) (idx : Nat)
    (hq : qualifies t = true) (hp : t.item = some p) (hidx : t.index = some idx) :
    selectStep none t = some (p, idx) := by
  unfold selectStep
  rw [if_pos hq, hp, hidx]

/-- A qualifying token replaces a set accumulator exactly when its index is
strictly lower. -/
theorem selectStep_some (t : ViewToken) (p q : Post) (idx b : Nat)
    (hq : qualifies t = true) (hp : t.item = some p) (hidx : t.index = some idx) :
    selectStep (some (q, b)) t =
      if idx < b then some (p, idx) else some (q, b) := by
  unfold selectStep
  rw [if_pos hq, hp, hidx]

/-- A non-qualifying token leaves the accumulator untouched. -/
theorem selectStep_skip (t : ViewToken) (acc : Option (Post × Nat))
    (hq : ¬qualifies t = true) :
    selectStep acc t = acc := by
  unfold selectStep
  rw [if_neg hq]

/-- A qualifying token yields item and index values. -/
theorem qualifies_fields (t : ViewToken) (hq : qualifies t = true) :
    ∃ p idx, t.item = some p ∧ t.index = some idx := by
  unfold qualifies at hq
  simp only [Bool.and_eq_true] at hq
  obtain ⟨p, hp⟩ := Option.isSome_iff_exists.mp hq.1.2
  obtain ⟨idx, hidx⟩ := Option.isSome_iff_exists.mp hq.2
  exact ⟨p, idx, hp, hidx⟩

/-- The selection loop yields a result whenever its accumulator is set or
some token qualifies. -/
theorem selectLoop_isSome (items : List ViewToken) :
    ∀ acc : Option (Post × Nat),
      (acc.isSome = true ∨ ∃ t ∈ items, qualifies t = true) →
      (selectLoop items acc).isSome = true := by
  induction items with
  | nil =>
      intro acc h
      rcases h with h | ⟨t, ht, _⟩
      · exact h
      · cases ht
  | cons t rest ih =>
      intro acc h
      unfold selectLoop
      by_cases hq : qualifies t = true
      · obtain ⟨p, idx, hp, hidx⟩ := qualifies_fields t hq
        apply ih
        left
        cases acc with
        | none => rw [selectStep_none t p idx hq hp hidx]; rfl
        | some best =>
            rcases best with ⟨b1, b2⟩
            rw [selectStep_some t p b1 idx b2 hq hp hidx]
            by_cases hlt : idx < b2 <;> simp [hlt]
      · rw [selectStep_skip t acc hq]
        apply ih
        rcases h with h | ⟨u, hu, hqu⟩
        · exact Or.inl h
        · rcases List.mem_cons.mp hu with hu | hu
          · subst hu
            exact absurd hqu hq
          · exact Or.inr ⟨u, hu, hqu⟩

/-- Where the selection loop's answer comes from: the accumulator, or a
qualifying token of the list. -/
theorem selectLoop_origin (items : List ViewToken) :
    ∀ (acc : Option (Post × Nat)) (p : Post) (idx : Nat),
      selectLoop items acc = some (p, idx) →
      acc = some (p, idx) ∨
        ∃ t ∈ items, qualifies t = true ∧ t.item = some p ∧ t.index = some idx := by
  induction items with
  | nil =>
      intro acc p idx h
      exact Or.inl h
  | cons t rest ih =>
      intro acc p idx h
      unfold selectLoop at h
      by_cases hq : qualifies t = true
      · obtain ⟨p', idx', hp', hidx'⟩ := qualifies_fields t hq
        have hfromt : some (p', idx') = some (p, idx) →
            ∃ u ∈ t :: rest, qualifies u = true ∧ u.item = some p ∧ u.index = some idx := by
          intro he
          injection he with he'
          refine ⟨t, by simp, hq, ?_, ?_⟩
          · rw [hp', show p' = p from congrArg Prod.fst he']
          · rw [hidx', show idx' = idx from congrArg Prod.snd he']
        rcases hacc : acc with _ | ⟨⟨b1, b2⟩⟩
        · rw [hacc, selectStep_none t p' idx' hq hp' hidx'] at h
          rcases ih _ p idx h with hres | ⟨u, hu, hres⟩
          · exact Or.inr (hfromt hres)
          · exact Or.inr ⟨u, by simp [hu], hres⟩
        · rw [hacc, selectStep_some t p' b1 idx' b2 hq hp' hidx'] at h
          by_cases hlt : idx' < b2
          · rw [if_pos hlt] at h
            rcases ih _ p idx h with hres | ⟨u, hu, hres⟩
            · exact Or.inr (hfromt hres)
            · exact Or.inr ⟨u, by simp [hu], hres⟩
          · rw [if_neg hlt] at h
            rcases ih _ p idx h with hres | ⟨u, hu, hres⟩
            · exact Or.inl (hacc ▸ hres)
            · exact Or.inr ⟨u, by simp [hu], hres⟩
      · rw [selectStep_skip t acc hq] at h
        rcases ih _ p idx h with hres | ⟨u, hu, hres⟩
        · exact Or.inl hres
        · exact Or.inr ⟨u, by simp [hu], hres⟩

/-- The selection loop's answer has an index no larger than every qualifying
token's index and no larger than the incoming accumulator's index. -/
theorem selectLoop_min (items : List ViewToken) :
    ∀ (acc : Option (Post × Nat)) (p : Post) (idx : Nat),
      selectLoop items acc = some (p, idx) →
      (∀ t ∈ items, qualifies t = true → ∀ j, t.index = some j → idx ≤ j) ∧
      (∀ (q : Post) (b : Nat), acc = some (q, b) → idx ≤ b) := by
  induction items with
  | nil =>
      intro acc p idx h
      refine ⟨?_, ?_⟩
      · intro t ht
        cases ht
      · intro q b hb
        rw [hb] at h
        injection h with h'
        have : b = idx := congrArg Prod.snd h'
        omega
  | cons t rest ih =>
      intro acc p idx h
      unfold selectLoop at h
      by_cases hq : qualifies t = true
      · obtain ⟨p', idx', hp', hidx'⟩ := qualifies_fields t hq
        rcases hacc : acc with _ | ⟨⟨b1, b2⟩⟩
        · rw [hacc, selectStep_none t p' idx' hq hp' hidx'] at h
          obtain ⟨hminr, haccb⟩ := ih _ p idx h
          have hidxle : idx ≤ idx' := haccb p' idx' rfl
          refine ⟨?_, ?_⟩
          · intro u hu hqu j hj
            rcases List.mem_cons.mp hu with hu | hu
            · subst hu
              rw [hidx'] at hj
              injection hj with hj'
              omega
            · exact hminr u hu hqu j hj
          · intro q b hb
            cases hb
        · rw [hacc, selectStep_some t p' b1 idx' b2 hq hp' hidx'] at h
          by_cases hlt : idx' < b2
          · rw [if_pos hlt] at h
            obtain ⟨hminr, haccb⟩ := ih _ p idx h
            have hidxle : idx ≤ idx' := haccb p' idx' rfl
            refine ⟨?_, ?_⟩
            · intro u hu hqu j hj
              rcases List.mem_cons.mp hu with hu | hu
              · subst hu
                rw [hidx'] at hj
                injection hj with hj'
                omega
              · exact hminr u hu hqu j hj
            · intro q b hb
              injection hb with hb'
              have : b2 = b := congrArg Prod.snd hb'
              omega
          · rw [if_neg hlt] at h
            obtain ⟨hminr, haccb⟩ := ih _ p idx h
            have hidxle : idx ≤ b2 := haccb b1 b2 rfl
            have hb2le : b2 ≤ idx' := Nat.not_lt.mp hlt
            refine ⟨?_, ?_⟩
            · intro u hu hqu j hj
              rcases List.mem_cons.mp hu with hu | hu
              · subst hu
                rw [hidx'] at hj
                injection hj with hj'
                omega
              · exact hminr u hu hqu j hj
            · intro q b hb
              injection hb with hb'
              have : b2 = b := congrArg Prod.snd hb'
              omega
      · rw [selectStep_skip t acc hq] at h
        obtain ⟨hminr, haccb⟩ := ih _ p idx h
        refine ⟨?_, ?_⟩
        · intro u hu hqu j hj
          rcases List.mem_cons.mp hu with hu | hu
          · subst hu
            exact absurd hqu hq
          · exact hminr u hu hqu j hj
        · exact haccb

/-- C8 counterexample: the previously committed post `B` (index 2) is still
in the qualifying set, yet the code commits the lowest qualifying index 1
(post `A`) instead of keeping `B`: there is no stability preference. -/
theorem selection_stability_counterexample :
    qualifies cxTokenB = true ∧
    cxTokenB.item = some cxPostB ∧
    cxTokenB.index = some 2 ∧
    cxPostB.id = "B" ∧
    onViewableItemsChanged [cxTokenA, cxTokenB] (some "B") = some "A" ∧
    some "A" ≠ (some "B" : Option String) := by
  decide

/-- C8 (amended): for every viewability report whose qualifying set is
non-empty, the committed active post is one carried by a qualifying token
of minimal index, regardless of the previously committed id — the
previous id persists only when it is itself that minimal choice. -/
theorem lowest_index_selection (viewableItems : List ViewToken) (prevId : Option String)
    (hqual : ∃ t ∈ viewableItems, qualifies t = true) :
    ∃ t ∈ viewableItems, ∃ p idx,
      qualifies t = true ∧ t.item = some p ∧ t.index = some idx ∧
      onViewableItemsChanged viewableItems prevId = some p.id ∧
      ∀ u ∈ viewableItems, qualifies u = true → ∀ j, u.index = some j → idx ≤ j := by
  have hne : viewableItems.isEmpty = false := by
    obtain ⟨t, ht, _⟩ := hqual
    cases viewableItems with
    | nil => cases ht
    | cons a l => rfl
  have hs := selectLoop_isSome viewableItems none (Or.inr hqual)
  obtain ⟨⟨p, idx⟩, hsl⟩ := Option.isSome_iff_exists.mp hs
  rcases selectLoop_origin viewableItems none p idx hsl with hres | ⟨t, ht, hq, hp, hidx⟩
  · cases hres
  · have hmin := (selectLoop_min viewableItems none p idx hsl).1
    refine ⟨t, ht, p, idx, hq, hp, hidx, ?_, hmin⟩
    unfold onViewableItemsChanged
    rw [hne]
    simp only [Bool.false_eq_true, if_false, hsl]

/-- C8 witness: the amended selection rule on a one-token report. -/
theorem lowest_index_selection_witness :
    ∃ t ∈ [cxTokenA], ∃ p idx,
      qualifies t = true ∧ t.item = some p ∧ t.index = some idx ∧
      onViewableItemsChanged [cxTokenA] none = some p.id ∧
      ∀ u ∈ [cxTokenA], qualifies u = true → ∀ j, u.index = some j → idx ≤ j :=
  lowest_index_selection [cxTokenA] none ⟨cxTokenA, by simp, by decide⟩

/-- Recording `position = duration` marks the entry fully watched (for a
nonnegative duration, `duration ≥ duration * 0.9`). -/
theorem markAsWatched_complete (c : Cache) (uri : String) (d : Rat) (now : Nat)
    (hlen : c.length < maxCacheSize) (hd : 0 ≤ d) :
    isFullyWatchedQuery (markAsWatched c uri d d now) uri = true := by
  have htest : fullyWatchedTest d d = true := by
    unfold fullyWatchedTest
    rw [decide_eq_true_iff]
    linarith
  have hslen : (markStep c uri d d now).length ≤ maxCacheSize := by
    rw [markStep_length]
    split <;> omega
  unfold markAsWatched
  rw [cleanupCache_eq_of_le _ hslen, markStep_query, htest, Bool.true_or]

/-- C2 counterexample: a `playback_start` with unknown duration is handled
(the event is logged and the guard set) yet no watch-cache update occurs:
the cache write is guarded by `if (player.duration)`. -/
theorem watch_cache_start_counterexample :
    (onPlayingChange "u" true cxFreshAnalytics true (some 5) none 0).logged = true ∧
    (onPlayingChange "u" true cxFreshAnalytics true (some 5) none 0).state.hasLoggedStart
      = true ∧
    (onPlayingChange "u" true cxFreshAnalytics true (some 5) none 0).state.cache = [] ∧
    hasBeenWatched
      (onPlayingChange "u" true cxFreshAnalytics true (some 5) none 0).state.cache "u"
      = false := by
  decide

/-- C2 (amended): a handled `playback_start` records the current position and
duration in the watch cache exactly when the player's duration is known
and nonzero (the `if (player.duration)` guard), and leaves the cache
untouched otherwise; a handled `playback_complete` always records
`position = duration` and marks the entry fully watched. -/
theorem watch_cache_update (uri : String) (isActive : Bool) (st : AnalyticsState)
    (isPlaying : Bool) (currentTime dur : Option Rat) (now : Nat)
    (hcap : st.cache.length < maxCacheSize) (hd : 0 ≤ dur.getD 0) :
    ((onPlayingChange uri isActive st isPlaying currentTime dur now).logged = true ↔
      (isPlaying = true ∧ st.hasLoggedStart = false ∧ isActive = true)) ∧
    ((onPlayingChange uri isActive st isPlaying currentTime dur now).logged = true →
      durationTruthy dur = true →
      (onPlayingChange uri isActive st isPlaying currentTime dur now).state.cache =
        markAsWatched st.cache uri (currentTime.getD 0) (dur.getD 0) now) ∧
    ((onPlayingChange uri isActive st isPlaying currentTime dur now).logged = true →
      durationTruthy dur = false →
      (onPlayingChange uri isActive st isPlaying currentTime dur now).state.cache =
        st.cache) ∧
    ((onPlayToEnd uri st dur now).logged = true ↔ st.hasLoggedComplete = false) ∧
    ((onPlayToEnd uri st dur now).logged = true →
      (onPlayToEnd uri st dur now).state.cache =
        markAsWatched st.cache uri (dur.getD 0) (dur.getD 0) now) ∧
    ((onPlayToEnd uri st dur now).logged = true →
      isFullyWatchedQuery (onPlayToEnd uri st dur now).state.cache uri = true) := by
  by_cases hg : (isPlaying && !st.hasLoggedStart && isActive) = true
  · have hg3 : isPlaying = true ∧ st.hasLoggedStart = false ∧ isActive = true := by
      have h2 := hg
      simp only [Bool.and_eq_true, Bool.not_eq_true'] at h2
      exact ⟨h2.1.1, h2.1.2, h2.2⟩
    refine ⟨?_, ?_, ?_, ?_, ?_, ?_⟩
    · simp only [onPlayingChange, hg, if_true]
      constructor
      · intro _
        exact hg3
      · intro _
        by_cases hdur : durationTruthy dur = true <;> simp [hdur]
    · intro _ hdur
      simp [onPlayingChange, hg, hdur]
    · intro _ hdur
      simp [onPlayingChange, hg, hdur]
    · by_cases hc : st.hasLoggedComplete <;> simp [onPlayToEnd, hc]
    · intro hlog
      by_cases hc : st.hasLoggedComplete
      · simp [onPlayToEnd, hc] at hlog
      · simp [onPlayToEnd, hc]
    · intro hlog
      by_cases hc : st.hasLoggedComplete
      · simp [onPlayToEnd, hc] at hlog
      · simp only [onPlayToEnd, hc, Bool.not_false, if_true]
        exact markAsWatched_complete st.cache uri (dur.getD 0) now hcap hd
  · have hg3 : ¬(isPlaying = true ∧ st.hasLoggedStart = false ∧ isActive = true) := by
      intro ⟨h1, h2, h3⟩
      exact hg (by simp [h1, h2, h3])
    refine ⟨?_, ?_, ?_, ?_, ?_, ?_⟩
    · simp only [onPlayingChange, hg, if_false]
      constructor
      · intro hfalse
        simp at hfalse
      · intro hcontra
        exact absurd hcontra hg3
    · intro hlog
      simp [onPlayingChange, hg] at hlog
    · intro hlog
      simp [onPlayingChange, hg] at hlog
    · by_cases hc : st.hasLoggedComplete <;> simp [onPlayToEnd, hc]
    · intro hlog
      by_cases hc : st.hasLoggedComplete
      · simp [onPlayToEnd, hc] at hlog
      · simp [onPlayToEnd, hc]
    · intro hlog
      by_cases hc : st.hasLoggedComplete
      · simp [onPlayToEnd, hc] at hlog
      · simp only [onPlayToEnd, hc, Bool.not_false, if_true]
        exact markAsWatched_complete st.cache uri (dur.getD 0) now hcap hd

/-- C2 witness: the amended contract instantiated on a fresh slot with a
known 10-second duration. -/
theorem watch_cache_update_witness :
    cxFreshAnalytics.cache.length < maxCacheSize ∧
    (0 : Rat) ≤ (some (10 : Rat)).getD 0 ∧
    ((onPlayingChange "u" true cxFreshAnalytics true (some 5) (some 10) 0).logged = true ↔
      (true = true ∧ cxFreshAnalytics.hasLoggedStart = false ∧ true = true)) :=
  ⟨by decide, by decide,
    (watch_cache_update "u" true cxFreshAnalytics true (some 5) (some 10) 0
      (by decide) (by decide)).1⟩

/-- `Nat.digitChar` is injective on decimal digits. -/
theorem digitChar_inj_lt_ten (a b : Nat) (ha : a < 10) (hb : b < 10)
    (h : Nat.digitChar a = Nat.digitChar b) : a = b := by
  interval_cases a <;> interval_cases b <;> revert h <;> decide

/-- Mapping `Nat.digitChar` over digit lists is injective. -/
theorem map_digitChar_inj (l1 : List Nat) :
    ∀ l2 : List Nat, (∀ x ∈ l1, x < 10) → (∀ x ∈ l2, x < 10) →
      l1.map Nat.digitChar = l2.map Nat.digitChar → l1 = l2 := by
  induction l1 with
  | nil =>
      intro l2 _ _ h
      cases l2 with
      | nil => rfl
      | cons b t => cases h
  | cons a t ih =>
      intro l2 h1 h2 h
      cases l2 with
      | nil => cases h
      | cons b t2 =>
          rw [List.map_cons, List.map_cons] at h
          injection h with hh ht
          have hab : a = b :=
            digitChar_inj_lt_ten a b (h1 a (by simp)) (h2 b (by simp)) hh
          have htt : t = t2 :=
            ih t2 (fun x hx => h1 x (by simp [hx])) (fun x hx => h2 x (by simp [hx])) ht
          rw [hab, htt]

/-- The decimal rendering of naturals is injective. -/
theorem natDecimal_inj (m n : Nat) (h : natDecimal m = natDecimal n) : m = n := by
  have hzero : ∀ k : Nat, k ≠ 0 → natDecimal k ≠ "0" := by
    intro k hk hcontra
    unfold natDecimal at hcontra
    rw [if_neg hk] at hcontra
    have hdata := congrArg String.data hcontra
    simp only at hdata
    have hrev : (Nat.digits 10 k).map Nat.digitChar = ['0'] := by
      have := congrArg List.reverse hdata
      simpa using this
    have hdig : Nat.digits 10 k = [0] := by
      cases hd : Nat.digits 10 k with
      | nil => rw [hd] at hrev; cases hrev
      | cons d rest =>
          rw [hd, List.map_cons] at hrev
          cases rest with
          | nil =>
              injection hrev with h1 _
              have hdlt : d < 10 := Nat.digits_lt_base (by omega) (by rw [hd]; simp)
              have h0 : Nat.digitChar 0 = '0' := by decide
              have : d = 0 := digitChar_inj_lt_ten d 0 hdlt (by omega) (h1.trans h0.symm)
              rw [this]
          | cons e rest2 =>
              exact absurd (congrArg List.length hrev) (by simp)
    have hk0 : k = 0 := by
      have := Nat.ofDigits_digits 10 k
      rw [hdig] at this
      simpa [Nat.ofDigits] using this.symm
    exact hk hk0
  by_cases hm : m = 0 <;> by_cases hn : n = 0
  · rw [hm, hn]
  · exfalso
    apply hzero n hn
    rw [← h, hm]
    rfl
  · exfalso
    apply hzero m hm
    rw [h, hn]
    rfl
  · unfold natDecimal at h
    rw [if_neg hm, if_neg hn] at h
    have hdata := congrArg String.data h
    simp only at hdata
    have hmap : (Nat.digits 10 m).map Nat.digitChar =
        (Nat.digits 10 n).map Nat.digitChar := by
      have := congrArg List.reverse hdata
      simpa using this
    have hdig : Nat.digits 10 m = Nat.digits 10 n :=
      map_digitChar_inj _ _
        (fun x hx => Nat.digits_lt_base (by omega) hx)
        (fun x hx => Nat.digits_lt_base (by omega) hx) hmap
    have := congrArg (Nat.ofDigits 10) hdig
    rwa [Nat.ofDigits_digits, Nat.ofDigits_digits] at this

/-- Appending to a fixed left factor is injective on strings. -/
theorem string_append_left_cancel (pre s t : String) (h : pre ++ s = pre ++ t) :
    s = t := by
  have hdata := congrArg String.data h
  rw [String.data_append, String.data_append] at hdata
  exact String.ext (List.append_cancel_left hdata)

/-- The number of videos of a generated post is its drawn `videoCount`. -/
theorem generatePost_videos_length (i : Nat) (rnd : Nat → Nat) (now : Nat) :
    (generatePost i rnd now).videos.length = randomInt 1 5 (rnd 0) := by
  simp [generatePost]

/-- C10: for every count and every choice of random draws,
`generateMockPosts` returns exactly `count` posts, each with between one
and five videos, with pairwise-distinct post ids and globally
pairwise-distinct video ids (indices `postIndex * 10 + i`, `i < 10`,
never collide across posts). -/
theorem mock_posts_spec (count : Nat) (rnd : Nat → Nat → Nat) (now : Nat) :
    (generateMockPosts count rnd now).length = count ∧
    (∀ p ∈ generateMockPosts count rnd now,
      1 ≤ p.videos.length ∧ p.videos.length ≤ 5) ∧
    ((generateMockPosts count rnd now).map Post.id).Nodup ∧
    ((generateMockPosts count rnd now).map
      (fun p => p.videos.map Video.id)).flatten.Nodup := by
  have hvc : ∀ r : Nat, 1 ≤ randomInt 1 5 r ∧ randomInt 1 5 r ≤ 5 := by
    intro r
    unfold randomInt
    omega
  refine ⟨?_, ?_, ?_, ?_⟩
  · simp [generateMockPosts]
  · intro p hp
    unfold generateMockPosts at hp
    rw [List.mem_map] at hp
    obtain ⟨i, _, hpi⟩ := hp
    rw [← hpi, generatePost_videos_length]
    exact hvc (rnd i 0)
  · have hmap : (generateMockPosts count rnd now).map Post.id =
        (List.range count).map (fun i => "post-" ++ natDecimal i) := by
      unfold generateMockPosts
      rw [List.map_map]
      rfl
    rw [hmap]
    refine List.Nodup.map ?_ (List.nodup_range count)
    intro a b h
    exact natDecimal_inj a b (string_append_left_cancel "post-" _ _ h)
  · have hmap : (generateMockPosts count rnd now).map (fun p => p.videos.map Video.id) =
        (List.range count).map (fun i =>
          (List.range (randomInt 1 5 (rnd i 0))).map
            (fun k => "video-" ++ natDecimal (i * 10 + k))) := by
      unfold generateMockPosts
      rw [List.map_map]
      apply List.map_congr_left
      intro i _
      show (generatePost i (rnd i) now).videos.map Video.id = _
      unfold generatePost
      rw [List.map_map]
      rfl
    rw [hmap, List.nodup_flatten]
    constructor
    · intro l hl
      rw [List.mem_map] at hl
      obtain ⟨i, _, hli⟩ := hl
      rw [← hli]
      refine List.Nodup.map ?_ (List.nodup_range _)
      intro a b h
      have h' := natDecimal_inj _ _ (string_append_left_cancel "video-" _ _ h)
      omega
    · rw [List.pairwise_map]
      refine List.Pairwise.imp ?_ (List.pairwise_lt_range count)
      intro i j hij x hxi hxj
      rw [List.mem_map] at hxi hxj
      obtain ⟨k, hk, hxk⟩ := hxi
      obtain ⟨k', hk', hxk'⟩ := hxj
      rw [List.mem_range] at hk hk'
      have hk5 : k < 5 := Nat.lt_of_lt_of_le hk (hvc (rnd i 0)).2
      have hk5' : k' < 5 := Nat.lt_of_lt_of_le hk' (hvc (rnd j 0)).2
      have heq : "video-" ++ natDecimal (i * 10 + k) =
          "video-" ++ natDecimal (j * 10 + k') := by
        rw [hxk, ← hxk']
      have h' := natDecimal_inj _ _ (string_append_left_cancel "video-" _ _ heq)
      omega

/-- C10 witness: the uniqueness conclusions at a concrete count and draw. -/
theorem mock_posts_spec_witness :
    ((generateMockPosts 3 (fun _ _ => 0) 0).map Post.id).Nodup ∧
    (generateMockPosts 3 (fun _ _ => 0) 0).length = 3 :=
  ⟨(mock_posts_spec 3 (fun _ _ => 0) 0).2.2.1, (mock_posts_spec 3 (fun _ _ => 0) 0).1⟩
